import Mathlib

/-!
Shallow embedding of the go-clamd client (files clamd.go and conn.go).

Socket writes are modelled by a scripted network state: `outcomes` lists the
result of each successive Write call on the connection (`none` is a successful
write, `some e` a failed write returning the error `e`), `calls` records the
byte content of every attempted Write in order, and `written` records the
bytes that reached the wire (successful writes only). Bytes are natural
numbers below 256; strings are converted to bytes via their code points,
which coincides with the Go byte view for the ASCII data exchanged here.
-/

namespace GoClamd

structure NetState where
  calls : List (List Nat)
  written : List Nat
  outcomes : List (Option String)
deriving DecidableEq

/-- Model of a net.Conn Write call: consumes one scripted outcome, always
records the attempted bytes in `calls`, and appends them to `written` only
when the write succeeds. -/
def connWrite (st : NetState) (bytes : List Nat) : NetState × Option String :=
  let e := st.outcomes.headD none
  (⟨st.calls ++ [bytes],
    st.written ++ (if e = none then bytes else []),
    st.outcomes.drop 1⟩, e)

/-- Bytes of a string, one code point per byte (ASCII data only here). -/
def strBytes (s : String) : List Nat := s.data.map Char.toNat

/-- conn.go sendCommand: a single Write of the bytes of the string built by
fmt.Sprintf, that is "n" ++ command ++ "\n"; returns the result of that
write. -/
def sendCommand (st : NetState) (command : String) : NetState × Option String :=
  connWrite st (strBytes ("n" ++ command ++ "\n"))

/-- conn.go sendEOF: a single Write of four zero bytes. -/
def sendEOF (st : NetState) : NetState × Option String :=
  connWrite st [0, 0, 0, 0]

/-- The four length bytes of conn.go sendChunk, matching byte(n >> 24),
byte(n >> 16), byte(n >> 8), byte(n >> 0) on a nonnegative Go int. -/
def be4 (n : Nat) : List Nat :=
  [n / 2 ^ 24 % 256, n / 2 ^ 16 % 256, n / 2 ^ 8 % 256, n % 256]

/-- conn.go sendChunk: writes the four length bytes with the result of that
Write discarded, then writes the payload and returns the result of the
payload write only. -/
def sendChunk (st : NetState) (data : List Nat) : NetState × Option String :=
  let st1 := (connWrite st (be4 data.length)).1
  connWrite st1 data

/-- Reading a 4 byte big endian unsigned integer back. -/
def decodeBE4 : List Nat → Nat
  | [a, b, c, d] => a * 2 ^ 24 + b * 2 ^ 16 + c * 2 ^ 8 + d
  | _ => 0

theorem be4_length (n : Nat) : (be4 n).length = 4 := rfl

theorem decodeBE4_be4 (n : Nat) (h : n < 2 ^ 32) : decodeBE4 (be4 n) = n := by
  simp only [be4, decodeBE4]
  omega

/-- C4: on a connection whose writes succeed, sendChunk puts exactly 4 + n
bytes on the wire for a payload of n bytes, the first four being n in big
endian order (they decode back to n when n fits 32 bits), followed by the
payload verbatim; sendEOF puts exactly the four bytes 0 0 0 0 on the wire. -/
theorem claim_C4 (data : List Nat) (st : NetState)
    (hout : st.outcomes = []) (hsz : data.length < 2 ^ 32) :
    (sendChunk st data).1.written = st.written ++ (be4 data.length ++ data)
    ∧ (be4 data.length ++ data).length = 4 + data.length
    ∧ decodeBE4 (be4 data.length) = data.length
    ∧ (sendEOF st).1.written = st.written ++ [0, 0, 0, 0] := by
  refine ⟨?_, ?_, decodeBE4_be4 _ hsz, ?_⟩
  · simp [sendChunk, connWrite, hout]
  · simp [be4]
    omega
  · simp [sendEOF, connWrite, hout]

theorem claim_C4_witness :
    (sendChunk ⟨[], [], []⟩ [7, 8, 9]).1.written = [0, 0, 0, 3, 7, 8, 9]
    ∧ decodeBE4 (be4 3) = 3
    ∧ (sendEOF ⟨[], [], []⟩).1.written = [0, 0, 0, 0] := by
  have h := claim_C4 [7, 8, 9] ⟨[], [], []⟩ rfl (by norm_num)
  refine ⟨?_, ?_, ?_⟩
  · have h1 := h.1
    simpa [be4] using h1
  · exact h.2.2.1
  · have h4 := h.2.2.2
    simpa using h4

/-- C10: the error returned by sendChunk is exactly the outcome of the second
Write (the payload write); the outcome of the length Write is discarded, so
a failing length write followed by a succeeding payload write yields
success. -/
theorem claim_C10 (st : NetState) (data : List Nat) :
    (sendChunk st data).2 = (st.outcomes.drop 1).headD none
    ∧ ∀ (c : List (List Nat)) (w : List Nat) (e : String)
        (rest : List (Option String)) (d : List Nat),
        (sendChunk ⟨c, w, some e :: none :: rest⟩ d).2 = none := by
  exact ⟨rfl, fun c w e rest d => rfl⟩

theorem strBytes_append (a b : String) : strBytes (a ++ b) = strBytes a ++ strBytes b := by
  simp [strBytes]

/-- C7: sendCommand performs exactly one Write, whose bytes are the marker
byte 110 (the character n, selecting newline terminated replies), then the
command text, then the newline byte 10; its returned error is exactly the
outcome of that single write. -/
theorem claim_C7 (st : NetState) (command : String) :
    sendCommand st command = connWrite st (110 :: (strBytes command ++ [10]))
    ∧ (sendCommand st command).1.calls = st.calls ++ [110 :: (strBytes command ++ [10])]
    ∧ (sendCommand st command).2 = st.outcomes.headD none := by
  have hn : strBytes "n" = [110] := by decide
  have hnl : strBytes "\n" = [10] := by decide
  have hb : strBytes ("n" ++ command ++ "\n") = 110 :: (strBytes command ++ [10]) := by
    rw [strBytes_append, strBytes_append, hn, hnl]
    rfl
  refine ⟨?_, ?_, rfl⟩
  · rw [sendCommand, hb]
  · rw [sendCommand, hb]
    rfl

/-! ## ScanStream (clamd.go)

The caller supplied io.Reader is modelled as a script of Read results: each
entry is either a successful read returning some bytes (at most CHUNK_SIZE of
them, since the source reads into a fresh 1024 byte buffer each iteration) or
a failed read (any non nil error, io.EOF included). Exhausting the script is
treated as end of source. -/

inductive ReadResult where
  | ok (bytes : List Nat)
  | err (e : String)
deriving DecidableEq

def Source := List ReadResult

def CHUNK_SIZE : Nat := 1024

/-- Well formed source scripts: every successful read fits the 1024 byte
buffer handed to Read. -/
def sourceWFb : List ReadResult → Bool
  | [] => true
  | ReadResult.ok bytes :: rest => bytes.length ≤ CHUNK_SIZE && sourceWFb rest
  | ReadResult.err _ :: rest => sourceWFb rest

/-- The payloads the upload loop forwards: the successful non empty reads up
to the first read error, empty read, or end of source. -/
def chunksOf : List ReadResult → List (List Nat)
  | [] => []
  | ReadResult.err _ :: _ => []
  | ReadResult.ok bytes :: rest =>
      if bytes.length = 0 then [] else bytes :: chunksOf rest

/-- The wire frames of a list of chunk payloads: for each payload, its four
length bytes and then the payload, as the two Write calls of sendChunk. -/
def chunkFrames : List (List Nat) → List (List Nat)
  | [] => []
  | c :: rest => be4 c.length :: c :: chunkFrames rest

/-- The upload loop of clamd.go ScanStream: break on a read error, break on
an empty read, otherwise forward the bytes with sendChunk, whose returned
error the source discards. -/
def scanStreamLoop (st : NetState) : List ReadResult → NetState
  | [] => st
  | ReadResult.err _ :: _ => st
  | ReadResult.ok bytes :: rest =>
      if bytes.length = 0 then st
      else scanStreamLoop (sendChunk st bytes).1 rest

/-- clamd.go ScanStream after a successful connection: sendCommand INSTREAM
with its returned error discarded, the upload loop, then sendEOF; a sendEOF
error is returned and aborts, otherwise readResponse is started and a nil
error is returned. The Bool records whether readResponse was reached. -/
def scanStream (st : NetState) (src : List ReadResult) : NetState × Option String × Bool :=
  let st1 := (sendCommand st "INSTREAM").1
  let st2 := scanStreamLoop st1 src
  let r := sendEOF st2
  (r.1, r.2, r.2 == none)

theorem connWrite_calls (st : NetState) (b : List Nat) :
    (connWrite st b).1.calls = st.calls ++ [b] := rfl

theorem connWrite_outcomes (st : NetState) (b : List Nat) :
    (connWrite st b).1.outcomes = st.outcomes.drop 1 := rfl

theorem sendChunk_calls (st : NetState) (d : List Nat) :
    (sendChunk st d).1.calls = st.calls ++ [be4 d.length, d] := by
  show st.calls ++ [be4 d.length] ++ [d] = st.calls ++ [be4 d.length, d]
  simp

theorem sendChunk_outcomes (st : NetState) (d : List Nat) :
    (sendChunk st d).1.outcomes = st.outcomes.drop 2 := by
  show (st.outcomes.drop 1).drop 1 = st.outcomes.drop 2
  simp [List.drop_drop]

theorem scanStreamLoop_spec (src : List ReadResult) (st : NetState) :
    (scanStreamLoop st src).calls = st.calls ++ chunkFrames (chunksOf src)
    ∧ (scanStreamLoop st src).outcomes = st.outcomes.drop (2 * (chunksOf src).length) := by
  induction src generalizing st with
  | nil => simp [scanStreamLoop, chunksOf, chunkFrames]
  | cons r rest ih =>
    cases r with
    | err e => simp [scanStreamLoop, chunksOf, chunkFrames]
    | ok bytes =>
      by_cases hb : bytes.length = 0
      · simp [scanStreamLoop, chunksOf, chunkFrames, hb]
      · have h := ih (sendChunk st bytes).1
        refine ⟨?_, ?_⟩
        · rw [scanStreamLoop, if_neg hb, h.1, sendChunk_calls]
          simp [chunksOf, hb, chunkFrames]
        · rw [scanStreamLoop, if_neg hb, h.2, sendChunk_outcomes]
          rw [List.drop_drop]
          simp [chunksOf, hb]
          congr 1
          ring

/-- The full write trace and returned error of scanStream, over every script
of write outcomes: the INSTREAM frame, the frames of all forwarded chunks,
and the terminator are always attempted, and the returned error is exactly
the outcome of the terminator write. -/
theorem scanStream_spec (st : NetState) (src : List ReadResult) :
    (scanStream st src).1.calls
      = st.calls ++ (strBytes "nINSTREAM\n" :: (chunkFrames (chunksOf src) ++ [[0, 0, 0, 0]]))
    ∧ (scanStream st src).2.1
      = (st.outcomes.drop (1 + 2 * (chunksOf src).length)).headD none := by
  have hloop := scanStreamLoop_spec src (sendCommand st "INSTREAM").1
  have hcalls1 : (sendCommand st "INSTREAM").1.calls
      = st.calls ++ [strBytes "nINSTREAM\n"] := rfl
  have hout1 : (sendCommand st "INSTREAM").1.outcomes = st.outcomes.drop 1 := rfl
  constructor
  · show (sendEOF (scanStreamLoop (sendCommand st "INSTREAM").1 src)).1.calls = _
    rw [sendEOF, connWrite_calls, hloop.1, hcalls1]
    simp
  · show (sendEOF (scanStreamLoop (sendCommand st "INSTREAM").1 src)).2 = _
    show (scanStreamLoop (sendCommand st "INSTREAM").1 src).outcomes.headD none = _
    rw [hloop.2, hout1, List.drop_drop]

/-- C5 counterexample data: the INSTREAM write succeeds, the length write of
the single chunk succeeds, the payload write of that chunk fails with boom,
and the terminator write succeeds. -/
def c5state : NetState := ⟨[], [], [none, none, some "boom", none]⟩

/-- C5 counterexample: with a failed write in the middle of chunk forwarding,
ScanStream still sends the terminator (the final attempted write is the four
zero bytes, and it reaches the wire) and returns success, not the error. -/
theorem claim_C5_cex :
    (scanStream c5state [ReadResult.ok [7]]).2.1 = none
    ∧ (scanStream c5state [ReadResult.ok [7]]).1.calls
        = [strBytes "nINSTREAM\n", [0, 0, 0, 1], [7], [0, 0, 0, 0]]
    ∧ (scanStream c5state [ReadResult.ok [7]]).1.outcomes = []
    ∧ (sendChunk ⟨[strBytes "nINSTREAM\n"], strBytes "nINSTREAM\n",
        [none, some "boom", none]⟩ [7]).2 = some "boom" := by
  refine ⟨rfl, ?_, rfl, rfl⟩
  decide

/-- C5 amended: a write failure while forwarding chunks is discarded by
ScanStream: the loop continues, every chunk frame and the terminator are
still attempted, and the error returned to the caller is exactly the outcome
of the terminator write, never a chunk write error. -/
theorem claim_C5_amended (st : NetState) (src : List ReadResult) :
    (scanStream st src).1.calls
      = st.calls ++ (strBytes "nINSTREAM\n" :: (chunkFrames (chunksOf src) ++ [[0, 0, 0, 0]]))
    ∧ (scanStream st src).2.1
      = (st.outcomes.drop (1 + 2 * (chunksOf src).length)).headD none :=
  scanStream_spec st src

theorem chunksOf_le (src : List ReadResult) (hwf : sourceWFb src = true) :
    ∀ c ∈ chunksOf src, c.length ≤ CHUNK_SIZE := by
  induction src with
  | nil => simp [chunksOf]
  | cons r rest ih =>
    cases r with
    | err e => simp [chunksOf]
    | ok bytes =>
      rw [sourceWFb, Bool.and_eq_true] at hwf
      by_cases hb : bytes.length = 0
      · simp [chunksOf, hb]
      · rw [chunksOf, if_neg hb]
        intro c hc
        rcases List.mem_cons.mp hc with h | h
        · exact h ▸ of_decide_eq_true hwf.1
        · exact ih hwf.2 c h

/-- C6: ScanStream always attempts the INSTREAM frame, then one chunk frame
per successful non empty read up to the first read error, empty read, or end
of source, then the terminator; forwarded chunks never exceed CHUNK_SIZE on a
well formed source; an empty read or a read error stops the loop just like
end of source; and the response reader is started exactly when the
terminator write succeeded, which is exactly when a nil error is returned. -/
theorem claim_C6 (st : NetState) (src : List ReadResult) (hwf : sourceWFb src = true) :
    (scanStream st src).1.calls
      = st.calls ++ (strBytes "nINSTREAM\n" :: (chunkFrames (chunksOf src) ++ [[0, 0, 0, 0]]))
    ∧ (∀ rest, chunksOf (ReadResult.ok [] :: rest) = [])
    ∧ (∀ e rest, chunksOf (ReadResult.err e :: rest) = [])
    ∧ (∀ bytes rest, bytes ≠ [] → chunksOf (ReadResult.ok bytes :: rest) = bytes :: chunksOf rest)
    ∧ (∀ c ∈ chunksOf src, c.length ≤ CHUNK_SIZE)
    ∧ ((scanStream st src).2.2 = true ↔ (scanStream st src).2.1 = none) := by
  refine ⟨(scanStream_spec st src).1, fun rest => rfl, fun e rest => rfl, ?_, chunksOf_le src hwf, ?_⟩
  · intro bytes rest hb
    rw [chunksOf, if_neg (by simpa using hb)]
  · show ((sendEOF _).2 == none) = true ↔ (sendEOF _).2 = none
    simp

theorem claim_C6_witness :
    chunksOf [ReadResult.ok [5], ReadResult.ok [], ReadResult.err "bang"]
      = [5] :: chunksOf [ReadResult.ok [], ReadResult.err "bang"]
    ∧ ∀ c ∈ chunksOf [ReadResult.ok [5], ReadResult.ok [], ReadResult.err "bang"],
        c.length ≤ CHUNK_SIZE := by
  have h := claim_C6 ⟨[], [], []⟩ [ReadResult.ok [5], ReadResult.ok [], ReadResult.err "bang"]
    (by decide)
  exact ⟨h.2.2.2.1 [5] [ReadResult.ok [], ReadResult.err "bang"] (by decide), h.2.2.2.2.1⟩

/-! ## Reply parsing (clamd.go)

Reply handling is a pure function of the list of reply lines the background
reader publishes, in order. Receiving from the reply channel after it was
closed yields the empty string, the Go zero value, so a single receive is
modelled by headD with default the empty string. A Go panic inside a parse
loop is modelled by the value none. -/

/-- Go strings.HasPrefix on ASCII data. -/
def hasPfx (s p : String) : Bool := p.data.isPrefixOf s.data

/-- Go strings.Trim with the cutset of a single space: removes leading and
trailing space characters. -/
def trimSpaces (s : String) : String :=
  ⟨((s.data.dropWhile fun c => c == ' ').reverse.dropWhile fun c => c == ' ').reverse⟩

/-- The Go slice expression s[i:]: defined when i is at most the length of s,
a panic (modelled as none) otherwise. -/
def goSliceFrom (s : String) (i : Nat) : Option String :=
  if i ≤ s.data.length then some ⟨s.data.drop i⟩ else none

structure Stats where
  Pools : String
  State : String
  Threads : String
  Memstats : String
  Queue : String
deriving DecidableEq

/-- The Go zero value of the Stats record, as allocated by Stats(). -/
def initStats : Stats := ⟨"", "", "", "", ""⟩

/-- One iteration of the classification loop in clamd.go Stats: the if else
chain over the line s, in source order. The POOLS branch evaluates s[6:]. -/
def statsUpdate (st : Stats) (s : String) : Option Stats :=
  if hasPfx s "POOLS" then
    (goSliceFrom s 6).map fun t => { st with Pools := trimSpaces t }
  else if hasPfx s "STATE" then some { st with State := s }
  else if hasPfx s "THREADS" then some { st with Threads := s }
  else if hasPfx s "QUEUE" then some { st with Queue := s }
  else if hasPfx s "MEMSTATS" then some { st with Memstats := s }
  else if hasPfx s "END" then some st
  else some st

/-- clamd.go Stats: fold the classification over all reply lines, starting
from the zero record; none when some iteration panics. -/
def statsParse (lines : List String) : Option Stats :=
  lines.foldlM statsUpdate initStats

/-- The POOLS value the specification describes: the text after the five
byte POOLS marker, with surrounding spaces trimmed. -/
def specPoolsValue (s : String) : String := trimSpaces ⟨s.data.drop 5⟩

/-- C3 counterexample: on the line POOLSX2 the code stores 2 (it drops the
six leading bytes of the line), while the description, text after the POOLS
marker with spaces trimmed, asks for X2; the two records differ. -/
theorem claim_C3_cex :
    statsParse ["POOLSX2"] = some { initStats with Pools := "2" }
    ∧ specPoolsValue "POOLSX2" = "X2"
    ∧ ¬ statsParse ["POOLSX2"] = some { initStats with Pools := specPoolsValue "POOLSX2" } := by
  refine ⟨by decide, by decide, by decide⟩

/-- C3 amended: Stats classifies each line by testing the markers in the
priority order POOLS, STATE, THREADS, QUEUE, MEMSTATS, END; a POOLS line
stores the text from byte index six on (marker plus one separator byte) with
surrounding spaces trimmed, and is only defined on lines of at least six
bytes; each of STATE, THREADS, QUEUE and MEMSTATS stores the entire line
verbatim; END and unrecognized lines are discarded; on the concrete six line
input the claimed record results. -/
theorem claim_C3_amended :
    (∀ st s, hasPfx s "POOLS" = true → 6 ≤ s.data.length →
      statsUpdate st s = some { st with Pools := trimSpaces ⟨s.data.drop 6⟩ })
    ∧ (∀ st s, hasPfx s "POOLS" = false → hasPfx s "STATE" = true →
      statsUpdate st s = some { st with State := s })
    ∧ (∀ st s, hasPfx s "POOLS" = false → hasPfx s "STATE" = false →
      hasPfx s "THREADS" = true → statsUpdate st s = some { st with Threads := s })
    ∧ (∀ st s, hasPfx s "POOLS" = false → hasPfx s "STATE" = false →
      hasPfx s "THREADS" = false → hasPfx s "QUEUE" = true →
      statsUpdate st s = some { st with Queue := s })
    ∧ (∀ st s, hasPfx s "POOLS" = false → hasPfx s "STATE" = false →
      hasPfx s "THREADS" = false → hasPfx s "QUEUE" = false →
      hasPfx s "MEMSTATS" = true → statsUpdate st s = some { st with Memstats := s })
    ∧ (∀ st s, hasPfx s "POOLS" = false → hasPfx s "STATE" = false →
      hasPfx s "THREADS" = false → hasPfx s "QUEUE" = false →
      hasPfx s "MEMSTATS" = false → statsUpdate st s = some st)
    ∧ statsParse ["POOLS 2", "STATE VALID", "THREADS live 2", "QUEUE 0",
        "MEMSTATS heap 10M", "END"]
      = some ⟨"2", "STATE VALID", "THREADS live 2", "MEMSTATS heap 10M", "QUEUE 0"⟩ := by
  refine ⟨?_, ?_, ?_, ?_, ?_, ?_, by decide⟩
  · intro st s h1 h2
    simp [statsUpdate, h1, goSliceFrom, h2]
    exact h2
  · intro st s h1 h2
    simp [statsUpdate, h1, h2]
  · intro st s h1 h2 h3
    simp [statsUpdate, h1, h2, h3]
  · intro st s h1 h2 h3 h4
    simp [statsUpdate, h1, h2, h3, h4]
  · intro st s h1 h2 h3 h4 h5
    simp [statsUpdate, h1, h2, h3, h4, h5]
  · intro st s h1 h2 h3 h4 h5
    by_cases h6 : hasPfx s "END" = true
    · simp [statsUpdate, h1, h2, h3, h4, h5, h6]
    · simp [statsUpdate, h1, h2, h3, h4, h5, h6]

theorem claim_C3_witness :
    statsUpdate initStats "POOLS 2"
      = some { initStats with Pools := trimSpaces ⟨("POOLS 2").data.drop 6⟩ } :=
  claim_C3_amended.1 initStats "POOLS 2" (by decide) (by decide)

/-- C9: on the line consisting of exactly the five bytes POOLS the POOLS
branch is taken and evaluates s[6:] with six larger than the length of s, a
Go slice bounds panic; classification is not total and the whole Stats parse
aborts on such a line. -/
theorem claim_C9_bug :
    hasPfx "POOLS" "POOLS" = true
    ∧ goSliceFrom "POOLS" 6 = none
    ∧ statsUpdate initStats "POOLS" = none
    ∧ statsParse ["POOLS", "STATE VALID"] = none := by
  refine ⟨by decide, by decide, by decide, by decide⟩

/-- Model of receiving once from the reply channel: the first line, or the
empty string once the channel is closed. -/
def chanReceive (lines : List String) : String := lines.headD ""

/-- clamd.go Ping after a successful simpleCommand: receive one value from
the reply channel; nil on PONG, otherwise an error built by fmt.Sprintf. -/
def ping (lines : List String) : Option String :=
  let s := chanReceive lines
  if s = "PONG" then none else some ("Invalid response, got " ++ s ++ ".")

/-- C2 counterexample: on the reply sequence PONG, EXTRA the code returns
success although the sequence does not consist of exactly one PONG line, so
the claimed equivalence fails. -/
theorem claim_C2_cex :
    ping ["PONG", "EXTRA"] = none
    ∧ ["PONG", "EXTRA"] ≠ (["PONG"] : List String) := by
  refine ⟨by decide, by decide⟩

/-- C2 amended: Ping succeeds exactly when the first line of the reply
sequence, the empty string when the sequence is empty, equals PONG; lines
after the first are never inspected; on any other first line Ping returns an
error whose message contains that text. -/
theorem claim_C2_amended (lines : List String) :
    (ping lines = none ↔ lines.headD "" = "PONG")
    ∧ (∀ rest, ping ("PONG" :: rest) = none)
    ∧ (lines.headD "" ≠ "PONG" →
        ∃ a b, ping lines = some (a ++ lines.headD "" ++ b)) := by
  refine ⟨?_, fun rest => rfl, ?_⟩
  · by_cases hc : lines.headD "" = "PONG"
    · simp [ping, chanReceive, hc]
    · simp [ping, chanReceive, hc]
  · intro h
    exact ⟨"Invalid response, got ", ".", by unfold ping chanReceive; rw [if_neg h]⟩

theorem claim_C2_witness :
    ∃ a b, ping ["FOO"] = some (a ++ "FOO" ++ b) := by
  have h := (claim_C2_amended ["FOO"]).2.2 (by decide)
  simpa using h

/-! ## Transport selection (clamd.go newConnection, conn.go dial helpers)

A dial is modelled by the pair of arguments handed to net.Dial: the network
name and the address. -/

def netDial (network address : String) : String × String := (network, address)

def newCLAMDUnixConn (address : String) : String × String := netDial "unix" address

def newCLAMDTcpConn (address : String) : String × String := netDial "tcp" address

/-- clamd.go newConnection: always the unix dial helper. -/
def newConnection (address : String) : String × String := newCLAMDUnixConn address

/-- clamd.go simpleCommand dials through newCLAMDUnixConn directly. -/
def simpleCommandDial (address : String) : String × String := newCLAMDUnixConn address

/-- C8 counterexample: for a host colon port address the claim requires a tcp
dial, but every command execution dials the network unix. -/
theorem claim_C8_cex :
    newConnection "127.0.0.1:3310" = ("unix", "127.0.0.1:3310")
    ∧ simpleCommandDial "127.0.0.1:3310" = ("unix", "127.0.0.1:3310")
    ∧ ¬ newConnection "127.0.0.1:3310" = ("tcp", "127.0.0.1:3310") := by
  refine ⟨rfl, rfl, by decide⟩

/-- C8 amended: every command execution dials the caller supplied address as
a local domain socket, whatever its form; the tcp dial helper exists in the
source but is never reached from any command. -/
theorem claim_C8_amended (address : String) :
    newConnection address = netDial "unix" address
    ∧ simpleCommandDial address = netDial "unix" address
    ∧ newCLAMDTcpConn address = netDial "tcp" address :=
  ⟨rfl, rfl, rfl⟩

/-! ## Connection lifecycle (clamd.go simpleCommand and ScanStream)

Both command paths spawn the read loop of conn.go readResponse and a closer
goroutine that runs wg.Wait() and then conn.Close(). The WaitGroup counter
is one and wg.Done() runs in the defer of the read loop, after the loop has
returned; so the completion signal fires only once the reader can no longer
read or publish, and wg.Wait() returns only after the signal has fired. The
interleavings of the two goroutines form a transition system: publish models
one iteration of the read loop, finish models the loop returning (remote EOF
or a read error) together with its defer, and close models the closer
goroutine, which is enabled only once done holds, the semantics of
wg.Wait(). -/

structure LifeState where
  pending : List String
  published : List String
  done : Bool
  closed : Bool
deriving DecidableEq

inductive LifeStep : LifeState → LifeState → Prop
  | publish (l : String) (rest pub : List String) (c : Bool) :
      LifeStep ⟨l :: rest, pub, false, c⟩ ⟨rest, pub ++ [l], false, c⟩
  | finish (pend pub : List String) (c : Bool) :
      LifeStep ⟨pend, pub, false, c⟩ ⟨pend, pub, true, c⟩
  | close (pend pub : List String) :
      LifeStep ⟨pend, pub, true, false⟩ ⟨pend, pub, true, true⟩

/-- The state right after readResponse returned: nothing published, the
completion signal not fired, the socket open. -/
def lifeInit (pending : List String) : LifeState := ⟨pending, [], false, false⟩

def Reaches : LifeState → LifeState → Prop := Relation.ReflTransGen LifeStep

theorem reaches_closed_done (pending : List String) (s : LifeState)
    (h : Reaches (lifeInit pending) s) : s.closed = true → s.done = true := by
  induction h with
  | refl => intro hx; simp [lifeInit] at hx
  | tail hab hbc ih =>
    cases hbc with
    | publish l rest pub c =>
      intro hx
      have := ih hx
      simp at this
    | finish pend pub c => intro hx; rfl
    | close pend pub => intro hx; rfl

/-- C1: in every execution order of the reader and the closer, a state in
which the socket is closed is one in which the completion signal has fired,
and from such a state no step at all is possible any more; in particular the
reader can neither read nor publish once the socket is closed. -/
theorem claim_C1 (pending : List String) (s : LifeState)
    (h : Reaches (lifeInit pending) s) (hc : s.closed = true) :
    s.done = true ∧ ∀ t, ¬ LifeStep s t := by
  have hd : s.done = true := reaches_closed_done pending s h hc
  refine ⟨hd, ?_⟩
  intro t hstep
  cases hstep with
  | publish l rest pub c => simp at hd
  | finish pend pub c => simp at hd
  | close pend pub => simp at hc

theorem claim_C1_witness :
    ((⟨[], ["PONG"], true, true⟩ : LifeState).done = true)
    ∧ ¬ LifeStep ⟨[], ["PONG"], true, true⟩ ⟨[], ["PONG", "X"], true, true⟩ := by
  have h1 : Reaches (lifeInit ["PONG"]) ⟨[], ["PONG"], false, false⟩ :=
    Relation.ReflTransGen.tail Relation.ReflTransGen.refl
      (LifeStep.publish "PONG" [] [] false)
  have h2 : Reaches (lifeInit ["PONG"]) ⟨[], ["PONG"], true, false⟩ :=
    Relation.ReflTransGen.tail h1 (LifeStep.finish [] ["PONG"] false)
  have htrace : Reaches (lifeInit ["PONG"]) ⟨[], ["PONG"], true, true⟩ :=
    Relation.ReflTransGen.tail h2 (LifeStep.close [] ["PONG"])
  have h := claim_C1 ["PONG"] ⟨[], ["PONG"], true, true⟩ htrace rfl
  exact ⟨h.1, h.2 _⟩

end GoClamd
